import Mathlib

/-!
Verification of the WordMaster game core (session state machine, acceptance
matching, scoring) against its natural-language specification.

The definitions below are a shallow embedding of the JavaScript source:
* `js/utils.js` (`GameUtils`): input sanitization, letter signatures,
  anagram matching, word scrambling;
* `js/game.js` (`WordsMaster`): the round state (`this.game`), and the
  transitions `startGame`, `submitAnswer` (with `handleCorrectAnswer` /
  `handleWrongAnswer`), `useHint`, `skipWord`, `updateGame`, `endGame`.

JavaScript strings are modelled over the ASCII fragment (`toLowerCase`
maps `A`-`Z` to `a`-`z` and fixes everything else); numbers are `Nat`,
except `lives`, which the source decrements and compares with `<= 0`,
modelled as `Int`.  Sources of randomness (the Fisher-Yates shuffle of the
word pool, the random comparator shuffles inside `scrambleWord`) and the
wall clock are made explicit parameters: a `shuffled` list required to be
a permutation of the eligible pool, a `draws` stream of candidate
permutations, and an `elapsed` number of whole seconds.
-/

namespace WordMaster

/-! ### GameUtils (js/utils.js) -/

/-- ASCII fragment of JavaScript `String.prototype.toLowerCase`, one character. -/
def lowerChar (c : Char) : Char :=
  if 'A' ≤ c ∧ c ≤ 'Z' then Char.ofNat (c.toNat + 32) else c

/-- ASCII fragment of JavaScript `String.prototype.toLowerCase`. -/
def toLowerStr (s : String) : String :=
  ⟨s.data.map lowerChar⟩

/-- JavaScript `String.prototype.trim` on the character list. -/
def trimChars (l : List Char) : List Char :=
  ((l.dropWhile Char.isWhitespace).reverse.dropWhile Char.isWhitespace).reverse

/-- Membership in the character class `[a-z]` of `GameUtils.sanitizeInput`. -/
def isLowerLetter (c : Char) : Bool :=
  decide ('a' ≤ c) && decide (c ≤ 'z')

/-- `GameUtils.sanitizeInput`: trim, lowercase, strip characters outside `[a-z]`. -/
def sanitizeInput (input : String) : String :=
  ⟨((trimChars input.data).map lowerChar).filter isLowerLetter⟩

/-- Insertion into a sorted character list (helper for the signature sort). -/
def insertSorted (c : Char) : List Char → List Char
  | [] => [c]
  | d :: ds => if c ≤ d then c :: d :: ds else d :: insertSorted c ds

/-- Sorting of a character list, as JavaScript `Array.prototype.sort` on
single characters (code-unit order). -/
def sortChars : List Char → List Char
  | [] => []
  | c :: cs => insertSorted c (sortChars cs)

/-- `GameUtils.lettersSignature`: lowercase the word and sort its characters. -/
def lettersSignature (s : String) : String :=
  ⟨sortChars (s.data.map lowerChar)⟩

/-- `GameUtils.sameLetters`: two words are anagram-equivalent iff their
letter signatures coincide. -/
def sameLetters (a b : String) : Bool :=
  lettersSignature a == lettersSignature b

/-- The retry loop of `GameUtils.scrambleWord`: while the current candidate
equals the original word and fewer than 10 retries have happened, draw the
next candidate.  `fuel` is the number of retries still allowed
(initially 10), `attempts` the number of retries already made. -/
def scrambleGo (word : String) (draws : Nat → String) : Nat → Nat → String → String
  | _, 0, scrambled => scrambled
  | attempts, fuel + 1, scrambled =>
      if scrambled = word then
        scrambleGo word draws (attempts + 1) fuel (draws (attempts + 1))
      else scrambled

/-- `GameUtils.scrambleWord`: words of length at most 1 are returned as is;
otherwise the first random permutation is drawn, and re-drawn up to 10
times while it still equals the input.  `draws i` is the result of the
`i`-th random shuffle. -/
def scrambleWord (draws : Nat → String) (word : String) : String :=
  if word.length ≤ 1 then word else scrambleGo word draws 0 10 (draws 0)

/-! ### Difficulty configuration and game state (js/game.js) -/

inductive Difficulty
  | easy
  | medium
  | hard
deriving DecidableEq

/-- One row of `this.difficultyConfig`. -/
structure Config where
  words : Nat
  time : Nat
  minLen : Nat
  maxLen : Nat
deriving DecidableEq

/-- `this.difficultyConfig` from the `WordsMaster` constructor. -/
def difficultyConfig : Difficulty → Config
  | .easy => ⟨5, 120, 4, 5⟩
  | .medium => ⟨10, 150, 6, 7⟩
  | .hard => ⟨20, 180, 8, 12⟩

/-- The mutable round state `this.game` (timer handle, start timestamp and
session id are external resources and are not part of the model; elapsed
time enters the transitions as an explicit parameter). -/
structure GameState where
  totalWords : Nat
  timeLimit : Nat
  currentWord : Nat
  score : Nat
  lives : Int
  hints : Nat
  streak : Nat
  longestStreak : Nat
  selectedWords : List String
  solved : List String
  missed : List String
  wordsPlayed : Nat
deriving DecidableEq

/-- The session-relevant fields of the `WordsMaster` object: the round
state, the `isGameActive` flag and the per-word hint counters
(`this.currentHintsUsed`, a last-write-wins association list). -/
structure Session where
  game : GameState
  isGameActive : Bool
  currentHintsUsed : List (Nat × Nat)
deriving DecidableEq

/-- The words of the pool that fit the difficulty's length range
(the filter applied to the word list in `startGame`). -/
def eligibleWords (cfg : Config) (pool : List String) : List String :=
  pool.filter (fun w => decide (cfg.minLen ≤ w.length) && decide (w.length ≤ cfg.maxLen))

/-- `startGame`: reset all counters, draw the first `cfg.words` entries of
the shuffled eligible pool, mark the game active.  `shuffled` stands for
the Fisher-Yates-shuffled eligible word list. -/
def startGame (cfg : Config) (shuffled : List String) : Session :=
  { game :=
      { totalWords := cfg.words
        timeLimit := cfg.time
        currentWord := 0
        score := 0
        lives := 3
        hints := 3
        streak := 0
        longestStreak := 0
        selectedWords := shuffled.take cfg.words
        solved := []
        missed := []
        wordsPlayed := 0 }
    isGameActive := true
    currentHintsUsed := [] }

/-- The dictionary used by `submitAnswer`: the base word list, extended by
the alternate-words supplement when that is a non-empty array. -/
def dictionaryOf (base alt : List String) : List String :=
  if alt.length ≠ 0 then base ++ alt else base

/-- The acceptance condition of `submitAnswer`:
`isInDictionary && matchesLetters && guess.length > 0`, where `guess` is
the sanitized input and the letters are matched against the lowercased
target word. -/
def acceptedGuess (base alt : List String) (raw target : String) : Bool :=
  let guess := sanitizeInput raw
  let dictionary := dictionaryOf base alt
  dictionary.contains guess && sameLetters guess (toLowerStr target) &&
    decide (0 < guess.length)

/-- `handleCorrectAnswer`: add 100 points, extend the streak, raise the
high-water mark, record the accepted guess string in `solved`. -/
def handleCorrectAnswer (guess : String) (s : Session) : Session :=
  { s with game :=
      { s.game with
          score := s.game.score + 100
          streak := s.game.streak + 1
          longestStreak := max (s.game.streak + 1) s.game.longestStreak
          solved := s.game.solved ++ [guess] } }

/-- `endGame`: deactivate the game and finalize the score.  With at least
one solved word the time bonus (`remaining = timeLimit - elapsed`,
truncated at 0, here by `Nat` subtraction), the streak bonus
(`longestStreak * 10`) and the perfect-completion bonus (100 iff every
word was solved) are added; with no solved word the score is wiped
to 0. -/
def endGame (elapsed : Nat) (s : Session) : Session :=
  if 0 < s.game.solved.length then
    { s with isGameActive := false
             game := { s.game with score := s.game.score +
               ((s.game.timeLimit - elapsed) + s.game.longestStreak * 10 +
                 (if s.game.solved.length = s.game.totalWords then 100 else 0)) } }
  else
    { s with isGameActive := false
             game := { s.game with score := 0 } }

/-- The perfect-game condition checked in `endGame` after the score is
finalized: every word solved and all three hints unused. -/
def wasPerfectGame (s : Session) : Bool :=
  decide (s.game.solved.length = s.game.totalWords) && decide (s.game.hints = 3)

/-- The game-over loop of `handleWrongAnswer`: for each index in turn, the
word is appended to `missed` unless it already occurs in `missed` or in
`solved`. -/
def addMissedIdx (selected solved : List String) : List String → List Nat → List String
  | missed, [] => missed
  | missed, i :: is =>
      addMissedIdx selected solved
        (if (!(missed.contains (selected.getD i ""))) &&
            (!(solved.contains (selected.getD i ""))) then
          missed ++ [selected.getD i ""]
        else missed)
        is

/-- The `missed` list after the game-over loop of `handleWrongAnswer` ran
over the indices `currentWord .. totalWords - 1`. -/
def gameOverMissed (g : GameState) : List String :=
  addMissedIdx g.selectedWords g.solved g.missed
    (List.range' g.currentWord (g.totalWords - g.currentWord))

/-- `handleWrongAnswer`: lose a life and reset the streak; when no lives
remain, record the current and all remaining words into `missed` (skipping
entries already present in `missed` or `solved`) and end the game.  (The
loop reads only fields the life decrement left unchanged, so it is given
`s.game` directly.) -/
def handleWrongAnswer (elapsed : Nat) (s : Session) : Session :=
  if s.game.lives - 1 ≤ 0 then
    endGame elapsed { s with game :=
      { s.game with lives := s.game.lives - 1, streak := 0, missed := gameOverMissed s.game } }
  else
    { s with game := { s.game with lives := s.game.lives - 1, streak := 0 } }

/-- The word-index advance after a correct answer
(`this.game.currentWord++; this.game.wordsPlayed++`). -/
def advanceWord (s : Session) : Session :=
  { s with game := { s.game with
      currentWord := s.game.currentWord + 1
      wordsPlayed := s.game.wordsPlayed + 1 } }

/-- The terminal check of `showNextWord` (and of `skipWord`): the round
ends once `currentWord` reaches `totalWords`. -/
def checkRoundEnd (elapsed : Nat) (s : Session) : Session :=
  if s.game.totalWords ≤ s.game.currentWord then endGame elapsed s else s

/-- `submitAnswer`: a no-op unless the game is active; an accepted guess
scores, advances, and ends the round after the last word (via
`showNextWord`'s terminal check); a rejected non-empty sanitized guess is
a wrong answer; an empty sanitized guess falls through with no state
change. -/
def submitAnswer (base alt : List String) (raw : String) (elapsed : Nat) (s : Session) :
    Session :=
  if s.isGameActive then
    if acceptedGuess base alt raw (s.game.selectedWords.getD s.game.currentWord "") then
      checkRoundEnd elapsed (advanceWord (handleCorrectAnswer (sanitizeInput raw) s))
    else if sanitizeInput raw ≠ "" then
      handleWrongAnswer elapsed s
    else s
  else s

/-- Reading `this.currentHintsUsed[i]`, defaulting to 0. -/
def hintsUsedFor (m : List (Nat × Nat)) (i : Nat) : Nat :=
  match m.find? (fun p => p.1 == i) with
  | some p => p.2
  | none => 0

/-- `useHint`: when hints remain, spend one and bump the per-word hint
counter for the current word (the hint text itself is presentation).
Note the source gates only on `this.game.hints > 0`, not on
`isGameActive`. -/
def useHint (s : Session) : Session :=
  if 0 < s.game.hints then
    { s with
        game := { s.game with hints := s.game.hints - 1 }
        currentHintsUsed :=
          (s.game.currentWord, hintsUsedFor s.currentHintsUsed s.game.currentWord + 1) ::
            s.currentHintsUsed }
  else s

/-- `skipWord`: push the current word onto `missed`, advance, and end the
game after the last word.  The source performs no `isGameActive` check. -/
def skipWord (elapsed : Nat) (s : Session) : Session :=
  checkRoundEnd elapsed
    { s with game := { s.game with
        missed := s.game.missed ++ [s.game.selectedWords.getD s.game.currentWord ""]
        currentWord := s.game.currentWord + 1
        wordsPlayed := s.game.wordsPlayed + 1 } }

/-- `updateGame` (the 1-second tick): when no time remains the game ends,
otherwise only the display is refreshed.  The source performs no
`isGameActive` check. -/
def updateGame (elapsed : Nat) (s : Session) : Session :=
  if s.game.timeLimit ≤ elapsed then endGame elapsed s else s

/-- Session states reachable through the game's own transitions, beginning
at `startGame`.  The shuffled pool is an arbitrary permutation of the
eligible words, and - following the specification's data model, where
`selectedWords` always has length `totalWords` and an under-filled pool is
a configuration error that prevents the round - the start rule requires
the pool to cover the word count. -/
inductive Reachable (base alt : List String) : Session → Prop
  | start (d : Difficulty) (shuffled : List String)
      (hperm : shuffled.Perm (eligibleWords (difficultyConfig d) base))
      (hfull : (difficultyConfig d).words ≤ shuffled.length) :
      Reachable base alt (startGame (difficultyConfig d) shuffled)
  | submit (raw : String) (elapsed : Nat) {s : Session} (h : Reachable base alt s) :
      Reachable base alt (submitAnswer base alt raw elapsed s)
  | hint {s : Session} (h : Reachable base alt s) :
      Reachable base alt (useHint s)
  | skip (elapsed : Nat) {s : Session} (h : Reachable base alt s) :
      Reachable base alt (skipWord elapsed s)
  | tick (elapsed : Nat) {s : Session} (h : Reachable base alt s) :
      Reachable base alt (updateGame elapsed s)

/-- Invariant maintained by every active reachable session: the word list
is full-length and signature-distinct, the player is on a word in range,
the signatures of `solved ++ missed` are exactly those of the
already-passed words, and `missed` holds passed words only. -/
structure Inv (s : Session) : Prop where
  len_eq : s.game.totalWords = s.game.selectedWords.length
  pw : s.game.selectedWords.Pairwise (fun a b => lettersSignature a ≠ lettersSignature b)
  lt : s.game.currentWord < s.game.totalWords
  acc : ((s.game.solved.map lettersSignature) ++ (s.game.missed.map lettersSignature)).Perm
      ((s.game.selectedWords.take s.game.currentWord).map lettersSignature)
  missed_sub : ∀ m ∈ s.game.missed, m ∈ s.game.selectedWords.take s.game.currentWord

/-! ### Concrete states used by witnesses and counterexamples

A five-word easy round drawn (in order) from a base dictionary of
four-letter words with pairwise distinct signatures, with `"lime"`
configured as an anagram alternate of `"mile"`.  The player solves the
first word by typing the alternate spelling `"lime"`, then answers
`"zzzz"` (sanitized non-empty, not in the dictionary) until the lives are
exhausted. -/

def exBase : List String := ["mile", "raft", "stop", "blue", "grid"]

def exAlt : List String := ["lime"]

def exS0 : Session := startGame (difficultyConfig .easy) exBase

def exS1 : Session := submitAnswer exBase exAlt "lime" 0 exS0

def exS2 : Session := submitAnswer exBase exAlt "zzzz" 0 exS1

def exS3 : Session := submitAnswer exBase exAlt "zzzz" 0 exS2

def exS4 : Session := submitAnswer exBase exAlt "zzzz" 0 exS3

/-- A finished two-word round in which both words were solved but one hint
was spent. -/
def exPerfectHinted : Session :=
  { game :=
      { totalWords := 2
        timeLimit := 100
        currentWord := 2
        score := 200
        lives := 3
        hints := 2
        streak := 2
        longestStreak := 2
        selectedWords := ["raft", "stop"]
        solved := ["raft", "stop"]
        missed := []
        wordsPlayed := 2 }
    isGameActive := true
    currentHintsUsed := [(0, 1)] }

/-! ### Basic facts about the character and signature functions -/

theorem toNat_ofNat_valid (n : Nat) (hv : n.isValidChar) : (Char.ofNat n).toNat = n := by
  unfold Char.ofNat
  rw [dif_pos hv]
  rfl

theorem lowerChar_toNat_of_upper (c : Char) (h : 'A' ≤ c ∧ c ≤ 'Z') :
    (lowerChar c).toNat = c.toNat + 32 := by
  have h2 : c.toNat ≤ 90 := h.2
  have hv : (c.toNat + 32).isValidChar := by left; omega
  unfold lowerChar
  rw [if_pos h]
  exact toNat_ofNat_valid _ hv

theorem lowerChar_of_not_upper (c : Char) (h : ¬ ('A' ≤ c ∧ c ≤ 'Z')) : lowerChar c = c := by
  unfold lowerChar
  rw [if_neg h]

theorem lowerChar_idem (c : Char) : lowerChar (lowerChar c) = lowerChar c := by
  by_cases h : 'A' ≤ c ∧ c ≤ 'Z'
  · have ht := lowerChar_toNat_of_upper c h
    have h1 : 65 ≤ c.toNat := h.1
    have h2 : c.toNat ≤ 90 := h.2
    have hnot : ¬ ('A' ≤ lowerChar c ∧ lowerChar c ≤ 'Z') := by
      intro hcon
      have hcon2 : (lowerChar c).toNat ≤ 90 := hcon.2
      omega
    exact lowerChar_of_not_upper _ hnot
  · rw [lowerChar_of_not_upper c h]
    exact lowerChar_of_not_upper c h

theorem lettersSignature_toLowerStr (s : String) :
    lettersSignature (toLowerStr s) = lettersSignature s := by
  unfold lettersSignature toLowerStr
  have hmap : (s.data.map lowerChar).map lowerChar = s.data.map lowerChar := by
    rw [List.map_map]
    exact List.map_congr_left (fun c _ => lowerChar_idem c)
  simp only [hmap]

theorem sameLetters_eq_true_iff (a b : String) :
    sameLetters a b = true ↔ lettersSignature a = lettersSignature b := by
  simp [sameLetters]

theorem sameLetters_toLowerStr (a b : String) :
    sameLetters a (toLowerStr b) = sameLetters a b := by
  unfold sameLetters
  rw [lettersSignature_toLowerStr]

theorem string_length_pos_iff (s : String) : 0 < s.length ↔ s ≠ "" := by
  constructor
  · intro h heq
    subst heq
    simp at h
  · intro h
    rcases s with ⟨l⟩
    cases l with
    | nil => exact absurd rfl h
    | cons c cs => simp [String.length]

/-! ### Basic facts about `endGame` and the transition branches -/

theorem endGame_fields (elapsed : Nat) (s : Session) :
    (endGame elapsed s).game.solved = s.game.solved ∧
    (endGame elapsed s).game.missed = s.game.missed ∧
    (endGame elapsed s).game.hints = s.game.hints ∧
    (endGame elapsed s).game.totalWords = s.game.totalWords ∧
    (endGame elapsed s).game.timeLimit = s.game.timeLimit ∧
    (endGame elapsed s).game.longestStreak = s.game.longestStreak ∧
    (endGame elapsed s).game.selectedWords = s.game.selectedWords ∧
    (endGame elapsed s).game.currentWord = s.game.currentWord ∧
    (endGame elapsed s).isGameActive = false := by
  unfold endGame
  split <;> exact ⟨rfl, rfl, rfl, rfl, rfl, rfl, rfl, rfl, rfl⟩

theorem endGame_score_spec (elapsed : Nat) (s : Session) :
    (endGame elapsed s).game.score =
      if s.game.solved.length = 0 then 0
      else s.game.score + ((s.game.timeLimit - elapsed) + s.game.longestStreak * 10 +
        (if s.game.solved.length = s.game.totalWords then 100 else 0)) := by
  unfold endGame
  by_cases h : 0 < s.game.solved.length
  · rw [if_pos h]
    rw [if_neg (show ¬ s.game.solved.length = 0 by omega)]
  · rw [if_neg h]
    rw [if_pos (show s.game.solved.length = 0 by omega)]

theorem wasPerfectGame_endGame (elapsed : Nat) (s : Session) :
    wasPerfectGame (endGame elapsed s) = wasPerfectGame s := by
  unfold wasPerfectGame
  rw [(endGame_fields elapsed s).1, (endGame_fields elapsed s).2.2.1,
      (endGame_fields elapsed s).2.2.2.1]

theorem submitAnswer_eq_of_inactive (base alt : List String) (raw : String) (e : Nat)
    (s : Session) (hact : s.isGameActive = false) :
    submitAnswer base alt raw e s = s := by
  unfold submitAnswer
  rw [hact]
  simp

theorem submitAnswer_eq_of_accepted (base alt : List String) (raw : String) (e : Nat)
    (s : Session) (hact : s.isGameActive = true)
    (hacc : acceptedGuess base alt raw (s.game.selectedWords.getD s.game.currentWord "")
      = true) :
    submitAnswer base alt raw e s =
      checkRoundEnd e (advanceWord (handleCorrectAnswer (sanitizeInput raw) s)) := by
  unfold submitAnswer
  rw [hact, hacc]
  simp

theorem submitAnswer_eq_of_rejected (base alt : List String) (raw : String) (e : Nat)
    (s : Session) (hact : s.isGameActive = true)
    (hacc : acceptedGuess base alt raw (s.game.selectedWords.getD s.game.currentWord "")
      = false)
    (hne : sanitizeInput raw ≠ "") :
    submitAnswer base alt raw e s = handleWrongAnswer e s := by
  unfold submitAnswer
  rw [hact, hacc]
  simp [hne]

theorem submitAnswer_eq_of_sanitized_empty (base alt : List String) (raw : String) (e : Nat)
    (s : Session) (hsan : sanitizeInput raw = "") :
    submitAnswer base alt raw e s = s := by
  by_cases hact : s.isGameActive = true
  · have hacc : acceptedGuess base alt raw
        (s.game.selectedWords.getD s.game.currentWord "") = false := by
      unfold acceptedGuess
      rw [hsan]
      simp
    unfold submitAnswer
    simp only [hact, hacc, hsan]
    simp
  · exact submitAnswer_eq_of_inactive base alt raw e s (Bool.not_eq_true _ ▸ hact)

theorem checkRoundEnd_of_lt (e : Nat) (s : Session)
    (h : s.game.currentWord < s.game.totalWords) :
    checkRoundEnd e s = s := by
  unfold checkRoundEnd
  rw [if_neg (by omega)]

theorem checkRoundEnd_of_ge (e : Nat) (s : Session)
    (h : s.game.totalWords ≤ s.game.currentWord) :
    checkRoundEnd e s = endGame e s := by
  unfold checkRoundEnd
  rw [if_pos h]

theorem handleWrongAnswer_eq_of_alive (e : Nat) (s : Session)
    (h : ¬ s.game.lives - 1 ≤ 0) :
    handleWrongAnswer e s =
      { s with game := { s.game with lives := s.game.lives - 1, streak := 0 } } := by
  unfold handleWrongAnswer
  rw [if_neg h]

theorem handleWrongAnswer_eq_of_dead (e : Nat) (s : Session) (h : s.game.lives - 1 ≤ 0) :
    handleWrongAnswer e s =
      endGame e { s with game :=
        { s.game with
            lives := s.game.lives - 1
            streak := 0
            missed := gameOverMissed s.game } } := by
  unfold handleWrongAnswer
  rw [if_pos h]

/-- The acceptance condition forces the sanitized guess to carry the letter
signature of the target word. -/
theorem acceptedGuess_sig (base alt : List String) (raw target : String)
    (hacc : acceptedGuess base alt raw target = true) :
    lettersSignature (sanitizeInput raw) = lettersSignature target := by
  unfold acceptedGuess at hacc
  simp only [Bool.and_eq_true] at hacc
  have h := hacc.1.2
  rw [sameLetters_toLowerStr] at h
  exact (sameLetters_eq_true_iff _ _).mp h

/-! ### Facts about the game-over loop -/

theorem take_subset_succ (l : List String) (k : Nat) : l.take k ⊆ l.take (k + 1) := by
  intro x hx
  have heq : (l.take (k + 1)).take k = l.take k := by
    rw [List.take_take]
    congr 1
    omega
  rw [← heq] at hx
  exact List.take_subset k _ hx

theorem map_getD_range'_aux (W : List String) :
    ∀ (m k : Nat), k + m = W.length →
      (List.range' k m).map (fun i => W.getD i "") = W.drop k := by
  intro m
  induction m with
  | zero =>
      intro k hk
      have : k = W.length := by omega
      subst this
      simp [List.drop_length]
  | succ n ih =>
      intro k hk
      have hkl : k < W.length := by omega
      rw [List.range'_succ]
      simp only [List.map_cons]
      rw [List.getD_eq_getElem W "" hkl]
      rw [List.drop_eq_getElem_cons hkl]
      rw [ih (k + 1) (by omega)]

theorem map_getD_range' (W : List String) (k : Nat) (hk : k ≤ W.length) :
    (List.range' k (W.length - k)).map (fun i => W.getD i "") = W.drop k :=
  map_getD_range'_aux W (W.length - k) k (by omega)

/-- When none of the processed words occurs (by signature) in `solved` or
`missed`, and their signatures are distinct, the guard of the game-over
loop never fires: every processed word is appended. -/
theorem addMissedIdx_eq_append (selected solved : List String) :
    ∀ (idxs : List Nat) (missed : List String),
      (∀ i ∈ idxs, lettersSignature (selected.getD i "") ∉
          (solved.map lettersSignature) ++ (missed.map lettersSignature)) →
      ((idxs.map (fun i => selected.getD i "")).map lettersSignature).Nodup →
      addMissedIdx selected solved missed idxs =
        missed ++ idxs.map (fun i => selected.getD i "") := by
  intro idxs
  induction idxs with
  | nil =>
      intro missed _ _
      simp [addMissedIdx]
  | cons i is ih =>
      intro missed hdisj hnd
      have hwm : selected.getD i "" ∉ missed := fun hmem =>
        hdisj i (List.mem_cons_self i is)
          (List.mem_append_right _ (List.mem_map_of_mem _ hmem))
      have hws : selected.getD i "" ∉ solved := fun hmem =>
        hdisj i (List.mem_cons_self i is)
          (List.mem_append_left _ (List.mem_map_of_mem _ hmem))
      have hcond : ((!(missed.contains (selected.getD i ""))) &&
          (!(solved.contains (selected.getD i "")))) = true := by
        simp
        refine ⟨by simpa using hwm, by simpa using hws⟩
      unfold addMissedIdx
      rw [if_pos hcond]
      have hsig_ne : ∀ j ∈ is,
          lettersSignature (selected.getD j "") ≠
            lettersSignature (selected.getD i "") := by
        intro j hj heq
        simp only [List.map_cons, List.nodup_cons] at hnd
        exact hnd.1 (heq ▸ List.mem_map_of_mem _ (List.mem_map_of_mem _ hj))
      have hdisj' : ∀ j ∈ is, lettersSignature (selected.getD j "") ∉
          (solved.map lettersSignature) ++
            ((missed ++ [selected.getD i ""]).map lettersSignature) := by
        intro j hj hmem
        rcases List.mem_append.mp hmem with hl | hr
        · exact hdisj j (List.mem_cons_of_mem i hj) (List.mem_append_left _ hl)
        · rw [List.map_append] at hr
          rcases List.mem_append.mp hr with hr1 | hr2
          · exact hdisj j (List.mem_cons_of_mem i hj) (List.mem_append_right _ hr1)
          · simp only [List.map_cons, List.map_nil, List.mem_singleton] at hr2
            exact hsig_ne j hj hr2
      have hnd' : ((is.map (fun i => selected.getD i "")).map lettersSignature).Nodup := by
        simp only [List.map_cons, List.nodup_cons] at hnd
        exact hnd.2
      rw [ih (missed ++ [selected.getD i ""]) hdisj' hnd']
      simp

/-! ### Facts about the scramble retry loop -/

theorem scrambleGo_sig (word : String) (draws : Nat → String) :
    ∀ (fuel attempts : Nat) (scrambled : String),
      sameLetters scrambled word = true →
      (∀ i, i ≤ attempts + fuel → sameLetters (draws i) word = true) →
      sameLetters (scrambleGo word draws attempts fuel scrambled) word = true := by
  intro fuel
  induction fuel with
  | zero =>
      intro attempts scrambled h _
      exact h
  | succ n ih =>
      intro attempts scrambled h hdr
      unfold scrambleGo
      split
      · exact ih (attempts + 1) _ (hdr (attempts + 1) (by omega)) (fun i hi => hdr i (by omega))
      · exact h

theorem scrambleGo_ne (word : String) (draws : Nat → String) :
    ∀ (fuel attempts : Nat) (scrambled : String),
      (scrambled ≠ word ∨ ∃ j, attempts < j ∧ j ≤ attempts + fuel ∧ draws j ≠ word) →
      scrambleGo word draws attempts fuel scrambled ≠ word := by
  intro fuel
  induction fuel with
  | zero =>
      intro attempts scrambled h
      rcases h with h | ⟨j, hj1, hj2, _⟩
      · exact h
      · omega
  | succ n ih =>
      intro attempts scrambled h
      unfold scrambleGo
      split
      · rename_i heq
        rcases h with h | ⟨j, hj1, hj2, hj3⟩
        · exact absurd heq h
        · by_cases hj : j = attempts + 1
          · subst hj
            exact ih (attempts + 1) _ (Or.inl hj3)
          · exact ih (attempts + 1) _ (Or.inr ⟨j, by omega, by omega, hj3⟩)
      · rename_i hne
        exact hne


theorem submitAnswer_accepted_cont (base alt : List String) (raw : String) (e : Nat)
    (t : Session) (hact : t.isGameActive = true)
    (hacc : acceptedGuess base alt raw (t.game.selectedWords.getD t.game.currentWord "")
      = true)
    (hend : t.game.currentWord + 1 < t.game.totalWords) :
    submitAnswer base alt raw e t = advanceWord (handleCorrectAnswer (sanitizeInput raw) t) := by
  rw [submitAnswer_eq_of_accepted base alt raw e t hact hacc]
  exact checkRoundEnd_of_lt e _ hend

theorem submitAnswer_accepted_end (base alt : List String) (raw : String) (e : Nat)
    (t : Session) (hact : t.isGameActive = true)
    (hacc : acceptedGuess base alt raw (t.game.selectedWords.getD t.game.currentWord "")
      = true)
    (hend : t.game.totalWords ≤ t.game.currentWord + 1) :
    submitAnswer base alt raw e t =
      endGame e (advanceWord (handleCorrectAnswer (sanitizeInput raw) t)) := by
  rw [submitAnswer_eq_of_accepted base alt raw e t hact hacc]
  exact checkRoundEnd_of_ge e _ hend

theorem skipWord_eq_of_lt (e : Nat) (t : Session)
    (hend : t.game.currentWord + 1 < t.game.totalWords) :
    skipWord e t =
      { t with game := { t.game with
          missed := t.game.missed ++ [t.game.selectedWords.getD t.game.currentWord ""]
          currentWord := t.game.currentWord + 1
          wordsPlayed := t.game.wordsPlayed + 1 } } := by
  unfold skipWord
  exact checkRoundEnd_of_lt e _ hend

theorem skipWord_eq_of_ge (e : Nat) (t : Session)
    (hend : t.game.totalWords ≤ t.game.currentWord + 1) :
    skipWord e t =
      endGame e { t with game := { t.game with
          missed := t.game.missed ++ [t.game.selectedWords.getD t.game.currentWord ""]
          currentWord := t.game.currentWord + 1
          wordsPlayed := t.game.wordsPlayed + 1 } } := by
  unfold skipWord
  exact checkRoundEnd_of_ge e _ hend

theorem inv_reachable {base alt : List String} {s : Session}
    (hbase : base.Pairwise (fun a b => lettersSignature a ≠ lettersSignature b))
    (hreach : Reachable base alt s) : s.isGameActive = true → Inv s := by
  induction hreach with
  | start d shuffled hperm hfull =>
      intro _
      have hsymm : ∀ {x y : String},
          (fun a b : String => lettersSignature a ≠ lettersSignature b) x y →
          (fun a b : String => lettersSignature a ≠ lettersSignature b) y x := by
        intro x y hxy h
        exact hxy h.symm
      have hpw : shuffled.Pairwise
          (fun a b : String => lettersSignature a ≠ lettersSignature b) :=
        (List.Perm.pairwise_iff hsymm hperm).mpr
          (List.Pairwise.sublist (List.filter_sublist base) hbase)
      refine ⟨?_, ?_, ?_, ?_, ?_⟩
      · show (difficultyConfig d).words = (shuffled.take (difficultyConfig d).words).length
        rw [List.length_take]
        omega
      · exact List.Pairwise.sublist (List.take_sublist _ _) hpw
      · show 0 < (difficultyConfig d).words
        cases d <;> decide
      · simp [startGame]
      · intro m hm
        simp [startGame] at hm
  | submit raw e h ih =>
      rename_i t
      intro hact'
      by_cases hact : t.isGameActive = true
      case neg =>
        rw [submitAnswer_eq_of_inactive base alt raw e t
          (Bool.not_eq_true t.isGameActive ▸ hact)] at hact'
        exact absurd hact' hact
      have inv := ih hact
      by_cases hacc : acceptedGuess base alt raw
          (t.game.selectedWords.getD t.game.currentWord "") = true
      · by_cases hend : t.game.totalWords ≤ t.game.currentWord + 1
        · rw [submitAnswer_accepted_end base alt raw e t hact hacc hend] at hact'
          rw [(endGame_fields e _).2.2.2.2.2.2.2.2] at hact'
          exact absurd hact' (by simp)
        · rw [submitAnswer_accepted_cont base alt raw e t hact hacc (by omega)] at hact' ⊢
          have hk : t.game.currentWord < t.game.selectedWords.length := by
            have h1 := inv.len_eq
            have h2 := inv.lt
            omega
          have hsig : lettersSignature (sanitizeInput raw) =
              lettersSignature (t.game.selectedWords.getD t.game.currentWord "") :=
            acceptedGuess_sig base alt raw _ hacc
          rw [List.getD_eq_getElem t.game.selectedWords "" hk] at hsig
          refine ⟨inv.len_eq, inv.pw,
            (show t.game.currentWord + 1 < t.game.totalWords by omega), ?_, ?_⟩
          · show (((t.game.solved ++ [sanitizeInput raw]).map lettersSignature) ++
                (t.game.missed.map lettersSignature)).Perm
              ((t.game.selectedWords.take (t.game.currentWord + 1)).map lettersSignature)
            rw [← List.take_concat_get t.game.selectedWords t.game.currentWord hk]
            rw [List.concat_eq_append, List.map_append, List.map_append]
            simp only [List.map_cons, List.map_nil]
            have hstep : (((t.game.solved.map lettersSignature) ++
                  [lettersSignature (sanitizeInput raw)]) ++
                (t.game.missed.map lettersSignature)).Perm
                (((t.game.solved.map lettersSignature) ++
                  (t.game.missed.map lettersSignature)) ++
                  [lettersSignature (sanitizeInput raw)]) := by
              rw [List.append_assoc, List.append_assoc]
              exact List.Perm.append_left _ List.perm_append_comm
            refine hstep.trans ?_
            rw [hsig]
            exact List.Perm.append_right _ inv.acc
          · intro m hm
            show m ∈ t.game.selectedWords.take (t.game.currentWord + 1)
            exact take_subset_succ _ _ (inv.missed_sub m hm)
      · by_cases hne : sanitizeInput raw ≠ ""
        · rw [submitAnswer_eq_of_rejected base alt raw e t hact
            (Bool.not_eq_true _ ▸ hacc) hne] at hact' ⊢
          by_cases hdead : t.game.lives - 1 ≤ 0
          · rw [handleWrongAnswer_eq_of_dead e t hdead] at hact'
            rw [(endGame_fields e _).2.2.2.2.2.2.2.2] at hact'
            exact absurd hact' (by simp)
          · rw [handleWrongAnswer_eq_of_alive e t hdead] at hact' ⊢
            exact ⟨inv.len_eq, inv.pw, inv.lt, inv.acc, inv.missed_sub⟩
        · rw [not_ne_iff] at hne
          rw [submitAnswer_eq_of_sanitized_empty base alt raw e t hne] at hact' ⊢
          exact ih hact'
  | hint h ih =>
      rename_i t
      intro hact'
      unfold useHint at hact' ⊢
      by_cases hh : 0 < t.game.hints
      · rw [if_pos hh] at hact' ⊢
        have inv := ih hact'
        exact ⟨inv.len_eq, inv.pw, inv.lt, inv.acc, inv.missed_sub⟩
      · rw [if_neg hh] at hact' ⊢
        exact ih hact'
  | skip e h ih =>
      rename_i t
      intro hact'
      by_cases hend : t.game.totalWords ≤ t.game.currentWord + 1
      · rw [skipWord_eq_of_ge e t hend] at hact'
        rw [(endGame_fields e _).2.2.2.2.2.2.2.2] at hact'
        exact absurd hact' (by simp)
      · rw [skipWord_eq_of_lt e t (by omega)] at hact' ⊢
        have inv := ih hact'
        have hk : t.game.currentWord < t.game.selectedWords.length := by
          have h1 := inv.len_eq
          have h2 := inv.lt
          omega
        refine ⟨inv.len_eq, inv.pw,
          (show t.game.currentWord + 1 < t.game.totalWords by omega), ?_, ?_⟩
        · show ((t.game.solved.map lettersSignature) ++
              ((t.game.missed ++ [t.game.selectedWords.getD t.game.currentWord ""]).map
                lettersSignature)).Perm
            ((t.game.selectedWords.take (t.game.currentWord + 1)).map lettersSignature)
          rw [← List.take_concat_get t.game.selectedWords t.game.currentWord hk]
          rw [List.concat_eq_append, List.map_append, List.map_append]
          simp only [List.map_cons, List.map_nil]
          rw [← List.append_assoc]
          rw [List.getD_eq_getElem t.game.selectedWords "" hk]
          exact List.Perm.append_right _ inv.acc
        · intro m hm
          show m ∈ t.game.selectedWords.take (t.game.currentWord + 1)
          rcases List.mem_append.mp hm with hl | hr
          · exact take_subset_succ _ _ (inv.missed_sub m hl)
          · rw [List.mem_singleton] at hr
            subst hr
            rw [← List.take_concat_get t.game.selectedWords t.game.currentWord hk,
              List.concat_eq_append]
            rw [List.getD_eq_getElem t.game.selectedWords "" hk]
            exact List.mem_append_right _ (List.mem_singleton.mpr rfl)
  | tick e h ih =>
      rename_i t
      intro hact'
      unfold updateGame at hact' ⊢
      by_cases htime : t.game.timeLimit ≤ e
      · rw [if_pos htime] at hact'
        rw [(endGame_fields e _).2.2.2.2.2.2.2.2] at hact'
        exact absurd hact' (by simp)
      · rw [if_neg htime] at hact' ⊢
        exact ih hact'

/-- Under the reachability invariant, the guard of the game-over loop never
fires: the remaining words are all appended to `missed`. -/
theorem gameOverMissed_eq (g : GameState)
    (hlen : g.totalWords = g.selectedWords.length)
    (hpw : g.selectedWords.Pairwise (fun a b => lettersSignature a ≠ lettersSignature b))
    (hle : g.currentWord ≤ g.totalWords)
    (hacc : ((g.solved.map lettersSignature) ++ (g.missed.map lettersSignature)).Perm
        ((g.selectedWords.take g.currentWord).map lettersSignature)) :
    gameOverMissed g = g.missed ++ g.selectedWords.drop g.currentWord := by
  have hkW : g.currentWord ≤ g.selectedWords.length := by omega
  have hmap := map_getD_range' g.selectedWords g.currentWord hkW
  have hnodup_all : (g.selectedWords.map lettersSignature).Nodup :=
    List.pairwise_map.mpr hpw
  have hsplit : (g.selectedWords.map lettersSignature) =
      (g.selectedWords.map lettersSignature).take g.currentWord ++
      (g.selectedWords.map lettersSignature).drop g.currentWord :=
    (List.take_append_drop _ _).symm
  rw [hsplit] at hnodup_all
  obtain ⟨hnd_take, hnd_drop, hdisj_td⟩ := List.nodup_append.mp hnodup_all
  have hdisj : ∀ i ∈ List.range' g.currentWord (g.selectedWords.length - g.currentWord),
      lettersSignature (g.selectedWords.getD i "") ∉
        (g.solved.map lettersSignature) ++ (g.missed.map lettersSignature) := by
    intro i hi hmem
    have hi' := List.mem_range'_1.mp hi
    have hiW : i < g.selectedWords.length := by omega
    have hmem_drop : lettersSignature (g.selectedWords.getD i "") ∈
        (g.selectedWords.map lettersSignature).drop g.currentWord := by
      rw [← List.map_drop]
      exact List.mem_map_of_mem _ (by
        rw [← hmap]
        exact List.mem_map_of_mem _ hi)
    have hmem_take : lettersSignature (g.selectedWords.getD i "") ∈
        (g.selectedWords.map lettersSignature).take g.currentWord := by
      rw [← List.map_take]
      exact hacc.mem_iff.mp hmem
    exact hdisj_td hmem_take hmem_drop
  have hnd : (((List.range' g.currentWord (g.selectedWords.length - g.currentWord)).map
      (fun i => g.selectedWords.getD i "")).map lettersSignature).Nodup := by
    rw [hmap, List.map_drop]
    exact hnd_drop
  unfold gameOverMissed
  rw [hlen]
  rw [addMissedIdx_eq_append g.selectedWords g.solved
    (List.range' g.currentWord (g.selectedWords.length - g.currentWord)) g.missed hdisj hnd]
  rw [hmap]

/-- The concrete three-wrong-answers state of the example run is reachable
through the game's own transitions. -/
theorem exS3_reachable : Reachable exBase exAlt exS3 :=
  Reachable.submit "zzzz" 0 (Reachable.submit "zzzz" 0 (Reachable.submit "lime" 0
    (Reachable.start .easy exBase (by decide) (by decide))))

/-! ### The claims -/

/-- C1: `submitAnswer` accepts a raw guess against the current target word
iff the sanitized guess (trimmed, lowercased, non-letters stripped) is
non-empty, has the same sorted-letter signature as the target word, and is
a member of the dictionary formed by the base word list concatenated with
the alternate-words supplement. -/
theorem acceptedGuess_iff (base alt : List String) (raw target : String) :
    acceptedGuess base alt raw target = true ↔
      (sanitizeInput raw ≠ "" ∧
       sameLetters (sanitizeInput raw) target = true ∧
       sanitizeInput raw ∈ base ++ alt) := by
  unfold acceptedGuess dictionaryOf
  by_cases halt : alt.length ≠ 0
  · rw [if_pos halt]
    simp [sameLetters_toLowerStr, string_length_pos_iff]
    tauto
  · rw [if_neg halt]
    have h0 : alt.length = 0 := by omega
    have halt' : alt = [] := List.eq_nil_of_length_eq_zero h0
    subst halt'
    simp [sameLetters_toLowerStr, string_length_pos_iff]
    tauto

/-- C2: when `endGame` runs, the final score is 0 if no word was solved,
and otherwise the accumulated score plus the remaining seconds (floored at
0 via the truncated subtraction), plus `longestStreak * 10`, plus 100 iff
the number of solved words equals `totalWords`. -/
theorem endGame_final_score (elapsed : Nat) (s : Session) :
    (endGame elapsed s).game.score =
      if s.game.solved.length = 0 then 0
      else s.game.score + ((s.game.timeLimit - elapsed) + s.game.longestStreak * 10 +
        (if s.game.solved.length = s.game.totalWords then 100 else 0)) :=
  endGame_score_spec elapsed s

/-- C3, counterexample: in a reachable round where the first word `"mile"`
was solved by typing the anagram alternate `"lime"` and a wrong answer
then drops the lives to 0, the game-over handling leaves
`len solved + len missed = totalWords`, but the round word `"mile"`
appears in neither list — so "every word of the round appears in exactly
one of the two lists" fails as stated. -/
theorem lives_exhaustion_word_coverage_fails :
    Reachable exBase exAlt exS3 ∧
    exS3.isGameActive = true ∧
    exS3.game.lives = 1 ∧
    sanitizeInput "zzzz" ≠ "" ∧
    acceptedGuess exBase exAlt "zzzz"
      (exS3.game.selectedWords.getD exS3.game.currentWord "") = false ∧
    "mile" ∈ exS3.game.selectedWords ∧
    (submitAnswer exBase exAlt "zzzz" 0 exS3).game.solved.length +
        (submitAnswer exBase exAlt "zzzz" 0 exS3).game.missed.length =
      exS3.game.totalWords ∧
    "mile" ∉ (submitAnswer exBase exAlt "zzzz" 0 exS3).game.solved ∧
    "mile" ∉ (submitAnswer exBase exAlt "zzzz" 0 exS3).game.missed :=
  ⟨exS3_reachable, by decide, by decide, by decide, by decide, by decide, by decide,
    by decide, by decide⟩

/-- C3, amended: for every reachable session state (over a base dictionary
with pairwise distinct letter signatures, as the repository's own test
asserts of its word list) in which a rejected non-empty guess drops the
lives to 0, after the game-over handling `len solved + len missed =
totalWords`, no round word appears in both lists, both lists are free of
duplicates, and every round word either appears in `missed` or is
represented in `solved` by an accepted spelling with the same letter
signature (the canonical word itself may appear in neither list when an
anagram alternate was accepted). -/
theorem lives_exhaustion_completeness (base alt : List String) (raw : String)
    (elapsed : Nat) (s : Session)
    (hbase : base.Pairwise (fun a b => lettersSignature a ≠ lettersSignature b))
    (hreach : Reachable base alt s)
    (hact : s.isGameActive = true)
    (hlives : s.game.lives = 1)
    (hne : sanitizeInput raw ≠ "")
    (hrej : acceptedGuess base alt raw (s.game.selectedWords.getD s.game.currentWord "")
      = false) :
    (submitAnswer base alt raw elapsed s).game.solved.length +
        (submitAnswer base alt raw elapsed s).game.missed.length = s.game.totalWords ∧
    (∀ w ∈ s.game.selectedWords,
        ¬ (w ∈ (submitAnswer base alt raw elapsed s).game.solved ∧
           w ∈ (submitAnswer base alt raw elapsed s).game.missed)) ∧
    (∀ w ∈ s.game.selectedWords,
        w ∈ (submitAnswer base alt raw elapsed s).game.missed ∨
        ∃ g ∈ (submitAnswer base alt raw elapsed s).game.solved, sameLetters g w = true) ∧
    (submitAnswer base alt raw elapsed s).game.solved.Nodup ∧
    (submitAnswer base alt raw elapsed s).game.missed.Nodup := by
  have inv := inv_reachable hbase hreach hact
  have hdead : s.game.lives - 1 ≤ 0 := by omega
  have heq : submitAnswer base alt raw elapsed s =
      endGame elapsed { s with game :=
        { s.game with
            lives := s.game.lives - 1
            streak := 0
            missed := gameOverMissed s.game } } := by
    rw [submitAnswer_eq_of_rejected base alt raw elapsed s hact hrej hne,
        handleWrongAnswer_eq_of_dead elapsed s hdead]
  have hsolved : (submitAnswer base alt raw elapsed s).game.solved = s.game.solved := by
    rw [heq, (endGame_fields elapsed _).1]
  have hmissed : (submitAnswer base alt raw elapsed s).game.missed =
      s.game.missed ++ s.game.selectedWords.drop s.game.currentWord := by
    rw [heq, (endGame_fields elapsed _).2.1]
    show gameOverMissed s.game = _
    exact gameOverMissed_eq s.game inv.len_eq inv.pw (Nat.le_of_lt inv.lt) inv.acc
  have hkW : s.game.currentWord ≤ s.game.selectedWords.length := by
    have h1 := inv.len_eq
    have h2 := inv.lt
    omega
  have hnodup_all : (s.game.selectedWords.map lettersSignature).Nodup :=
    List.pairwise_map.mpr inv.pw
  have hsplit : (s.game.selectedWords.map lettersSignature) =
      (s.game.selectedWords.map lettersSignature).take s.game.currentWord ++
      (s.game.selectedWords.map lettersSignature).drop s.game.currentWord :=
    (List.take_append_drop _ _).symm
  rw [hsplit] at hnodup_all
  obtain ⟨hnd_take, hnd_drop, hdisj_td⟩ := List.nodup_append.mp hnodup_all
  have hnd_sm : ((s.game.solved.map lettersSignature) ++
      (s.game.missed.map lettersSignature)).Nodup := by
    refine inv.acc.nodup_iff.mpr ?_
    rw [List.map_take]
    exact hnd_take
  obtain ⟨hnd_solved, hnd_missed, hdisj_sm⟩ := List.nodup_append.mp hnd_sm
  have hmem_d : ∀ w ∈ s.game.selectedWords.drop s.game.currentWord,
      lettersSignature w ∈
        (s.game.selectedWords.map lettersSignature).drop s.game.currentWord := by
    intro w hw
    rw [← List.map_drop]
    exact List.mem_map_of_mem _ hw
  have hmem_t : ∀ w, lettersSignature w ∈
        (s.game.solved.map lettersSignature) ++ (s.game.missed.map lettersSignature) →
      lettersSignature w ∈
        (s.game.selectedWords.map lettersSignature).take s.game.currentWord := by
    intro w hw
    rw [← List.map_take]
    exact inv.acc.mem_iff.mp hw
  refine ⟨?_, ?_, ?_, ?_, ?_⟩
  · rw [hsolved, hmissed]
    have hlenp := inv.acc.length_eq
    rw [List.length_append, List.length_map, List.length_map,
      List.length_map, List.length_take] at hlenp
    rw [List.length_append, List.length_drop]
    have h1 := inv.len_eq
    have h2 := inv.lt
    omega
  · rw [hsolved, hmissed]
    rintro w hw ⟨hws, hwm⟩
    have hsig_s : lettersSignature w ∈ s.game.solved.map lettersSignature :=
      List.mem_map_of_mem _ hws
    rcases List.mem_append.mp hwm with hm | hd
    · exact hdisj_sm (List.mem_map_of_mem _ hws) (List.mem_map_of_mem _ hm)
    · exact hdisj_td (hmem_t w (List.mem_append_left _ hsig_s)) (hmem_d w hd)
  · rw [hsolved, hmissed]
    intro w hw
    rw [← List.take_append_drop s.game.currentWord s.game.selectedWords] at hw
    rcases List.mem_append.mp hw with ht | hd
    · have hsig_mem : lettersSignature w ∈
          (s.game.solved.map lettersSignature) ++ (s.game.missed.map lettersSignature) := by
        refine inv.acc.mem_iff.mpr ?_
        exact List.mem_map_of_mem _ ht
      rcases List.mem_append.mp hsig_mem with hs | hm
      · rcases List.mem_map.mp hs with ⟨g, hg, hgsig⟩
        exact Or.inr ⟨g, hg, (sameLetters_eq_true_iff g w).mpr hgsig⟩
      · rcases List.mem_map.mp hm with ⟨m, hm', hmsig⟩
        have hmW : m ∈ s.game.selectedWords :=
          List.take_subset _ _ (inv.missed_sub m hm')
        have hwW : w ∈ s.game.selectedWords := List.take_subset _ _ ht
        have hsymm : Symmetric
            (fun a b : String => lettersSignature a ≠ lettersSignature b) := by
          intro x y hxy hcon
          exact hxy hcon.symm
        by_cases hmw : m = w
        · subst hmw
          exact Or.inl (List.mem_append_left _ hm')
        · exact absurd hmsig (inv.pw.forall hsymm hmW hwW hmw)
    · exact Or.inl (List.mem_append_right _ hd)
  · rw [hsolved]
    exact List.Nodup.of_map _ hnd_solved
  · rw [hmissed]
    refine List.nodup_append.mpr ⟨List.Nodup.of_map _ hnd_missed, ?_, ?_⟩
    · refine List.Nodup.of_map lettersSignature ?_
      rw [List.map_drop]
      exact hnd_drop
    · intro m hm hd
      exact hdisj_td
        (hmem_t m (List.mem_append_right _ (List.mem_map_of_mem _ hm)))
        (hmem_d m hd)

/-- C3, witness: the amended statement applied to a concrete reachable
life-exhaustion run. -/
theorem lives_exhaustion_completeness_witness :
    (submitAnswer exBase exAlt "qqqq" 5 exS3).game.solved.length +
        (submitAnswer exBase exAlt "qqqq" 5 exS3).game.missed.length =
      exS3.game.totalWords ∧
    ¬ ("raft" ∈ (submitAnswer exBase exAlt "qqqq" 5 exS3).game.solved ∧
       "raft" ∈ (submitAnswer exBase exAlt "qqqq" 5 exS3).game.missed) ∧
    (submitAnswer exBase exAlt "qqqq" 5 exS3).game.solved.Nodup ∧
    (submitAnswer exBase exAlt "qqqq" 5 exS3).game.missed.Nodup := by
  have h := lives_exhaustion_completeness exBase exAlt "qqqq" 5 exS3 (by decide)
    exS3_reachable (by decide) (by decide) (by decide) (by decide)
  exact ⟨h.1, h.2.1 "raft" (by decide), h.2.2.2.1, h.2.2.2.2⟩

/-- C4: for every active session, an input whose sanitized form is empty
leaves the entire session state unchanged (no life lost, no word advance,
not treated as a wrong answer). -/
theorem submitAnswer_empty_sanitized_noop (base alt : List String) (raw : String)
    (elapsed : Nat) (s : Session) (_hact : s.isGameActive = true)
    (hsan : sanitizeInput raw = "") :
    submitAnswer base alt raw elapsed s = s :=
  submitAnswer_eq_of_sanitized_empty base alt raw elapsed s hsan

/-- C4, witness: a whitespace-and-digits input on a live mid-round state. -/
theorem submitAnswer_empty_sanitized_noop_witness :
    (exS1.isGameActive = true ∧ sanitizeInput " 42!? " = "") ∧
    submitAnswer exBase exAlt " 42!? " 7 exS1 = exS1 :=
  ⟨⟨by decide, by decide⟩,
    submitAnswer_empty_sanitized_noop exBase exAlt " 42!? " 7 exS1 (by decide) (by decide)⟩

/-- C5: for every active session with more than one life, a rejected
non-empty guess decrements the lives by exactly 1, resets the streak to 0,
and leaves the longest streak, the word index, and the solved and missed
lists unchanged, keeping the game active on the same word. -/
theorem submitAnswer_rejected_effects (base alt : List String) (raw : String)
    (elapsed : Nat) (s : Session)
    (hact : s.isGameActive = true) (hlives : 1 < s.game.lives)
    (hne : sanitizeInput raw ≠ "")
    (hrej : acceptedGuess base alt raw (s.game.selectedWords.getD s.game.currentWord "")
      = false) :
    (submitAnswer base alt raw elapsed s).game.lives = s.game.lives - 1 ∧
    (submitAnswer base alt raw elapsed s).game.streak = 0 ∧
    (submitAnswer base alt raw elapsed s).game.longestStreak = s.game.longestStreak ∧
    (submitAnswer base alt raw elapsed s).game.currentWord = s.game.currentWord ∧
    (submitAnswer base alt raw elapsed s).game.solved = s.game.solved ∧
    (submitAnswer base alt raw elapsed s).game.missed = s.game.missed ∧
    (submitAnswer base alt raw elapsed s).isGameActive = true := by
  have hsub : submitAnswer base alt raw elapsed s =
      { s with game := { s.game with lives := s.game.lives - 1, streak := 0 } } := by
    rw [submitAnswer_eq_of_rejected base alt raw elapsed s hact hrej hne]
    rw [handleWrongAnswer_eq_of_alive elapsed s (by omega)]
  rw [hsub]
  exact ⟨rfl, rfl, rfl, rfl, rfl, rfl, hact⟩

/-- C5, witness: a rejected `"zzzz"` on the full-lives mid-round state. -/
theorem submitAnswer_rejected_effects_witness :
    (submitAnswer exBase exAlt "zzzz" 0 exS1).game.lives = exS1.game.lives - 1 ∧
    (submitAnswer exBase exAlt "zzzz" 0 exS1).game.streak = 0 ∧
    (submitAnswer exBase exAlt "zzzz" 0 exS1).game.longestStreak =
      exS1.game.longestStreak ∧
    (submitAnswer exBase exAlt "zzzz" 0 exS1).game.currentWord = exS1.game.currentWord ∧
    (submitAnswer exBase exAlt "zzzz" 0 exS1).game.solved = exS1.game.solved ∧
    (submitAnswer exBase exAlt "zzzz" 0 exS1).game.missed = exS1.game.missed ∧
    (submitAnswer exBase exAlt "zzzz" 0 exS1).isGameActive = true :=
  submitAnswer_rejected_effects exBase exAlt "zzzz" 0 exS1
    (by decide) (by decide) (by decide) (by decide)

/-- C6: at the end of a round the perfect-game flag is true iff every word
was solved and all three hints are unused; when every word of a non-empty
round was solved but a hint was used, the flag is false while the numeric
100-point perfect bonus is still part of the final score. -/
theorem perfect_flag_iff_and_bonus (elapsed : Nat) (s : Session) :
    (wasPerfectGame (endGame elapsed s) = true ↔
      (s.game.solved.length = s.game.totalWords ∧ s.game.hints = 3)) ∧
    (s.game.solved.length = s.game.totalWords → 0 < s.game.totalWords →
      s.game.hints ≠ 3 →
      wasPerfectGame (endGame elapsed s) = false ∧
      (endGame elapsed s).game.score =
        s.game.score + ((s.game.timeLimit - elapsed) + s.game.longestStreak * 10 + 100)) := by
  constructor
  · rw [wasPerfectGame_endGame]
    unfold wasPerfectGame
    simp
  · intro hall hpos hhint
    refine ⟨?_, ?_⟩
    · rw [wasPerfectGame_endGame]
      unfold wasPerfectGame
      simp [hhint]
    · rw [endGame_score_spec]
      rw [if_neg (show ¬ s.game.solved.length = 0 by omega)]
      rw [if_pos hall]

/-- C6, witness: a fully solved two-word round with one hint spent earns
the completion bonus but not the perfect-game flag. -/
theorem perfect_flag_iff_and_bonus_witness :
    wasPerfectGame (endGame 40 exPerfectHinted) = false ∧
    (endGame 40 exPerfectHinted).game.score =
      exPerfectHinted.game.score + ((exPerfectHinted.game.timeLimit - 40) +
        exPerfectHinted.game.longestStreak * 10 + 100) :=
  (perfect_flag_iff_and_bonus 40 exPerfectHinted).2 (by decide) (by decide) (by decide)

/-- C7, counterexample: on an ended session, `useHint` is not a no-op - the
source gates it only on `hints > 0`, not on the active flag - refuting
"calling any of the mutating methods while not active leaves the session
unchanged". -/
theorem useHint_inactive_mutates :
    exS4.isGameActive = false ∧ useHint exS4 ≠ exS4 := by decide

/-- C7, amended: only `submitAnswer` checks the active flag: when the
session is not active it is a silent no-op, while `useHint`, `skipWord`
and the tick (`updateGame`) perform no such check and can mutate a
non-active session. -/
theorem inactive_transition_effects :
    (∀ (base alt : List String) (raw : String) (elapsed : Nat) (s : Session),
        s.isGameActive = false → submitAnswer base alt raw elapsed s = s) ∧
    (∃ s : Session, s.isGameActive = false ∧ useHint s ≠ s) ∧
    (∃ (s : Session) (e : Nat), s.isGameActive = false ∧ skipWord e s ≠ s) ∧
    (∃ (s : Session) (e : Nat), s.isGameActive = false ∧ updateGame e s ≠ s) := by
  refine ⟨?_, ⟨exS4, by decide, by decide⟩, ⟨exS4, 0, by decide, by decide⟩,
    ⟨exS4, 200, by decide, by decide⟩⟩
  intro base alt raw e s h
  exact submitAnswer_eq_of_inactive base alt raw e s h

/-- C7, witness: `submitAnswer` on the concrete ended session is a no-op. -/
theorem inactive_transition_effects_witness :
    submitAnswer exBase exAlt "zzzz" 3 exS4 = exS4 :=
  inactive_transition_effects.1 exBase exAlt "zzzz" 3 exS4 (by decide)

/-- C8, counterexample: calling `endGame` again on an already-ended session
with a non-empty solved list changes the score (the bonuses are added a
second time), refuting idempotence. -/
theorem endGame_second_call_changes_score :
    (endGame 10 exS1).isGameActive = false ∧
    (endGame 10 (endGame 10 exS1)).game.score ≠ (endGame 10 exS1).game.score := by decide

/-- C8, amended: a second `endGame` leaves the solved and missed lists and
the ended state unchanged, but re-runs the bonus computation: with a
non-empty solved list it adds the time, streak and perfect bonuses again
on top of the already-finalized score (it is idempotent on the score only
when no word was solved). -/
theorem endGame_repeat_behavior (e e' : Nat) (s : Session) :
    (endGame e' (endGame e s)).game.solved = s.game.solved ∧
    (endGame e' (endGame e s)).game.missed = s.game.missed ∧
    (endGame e' (endGame e s)).isGameActive = false ∧
    (endGame e' (endGame e s)).game.score =
      if s.game.solved.length = 0 then 0
      else (endGame e s).game.score + ((s.game.timeLimit - e') + s.game.longestStreak * 10 +
        (if s.game.solved.length = s.game.totalWords then 100 else 0)) := by
  refine ⟨?_, ?_, ?_, ?_⟩
  · rw [(endGame_fields e' (endGame e s)).1, (endGame_fields e s).1]
  · rw [(endGame_fields e' (endGame e s)).2.1, (endGame_fields e s).2.1]
  · exact (endGame_fields e' (endGame e s)).2.2.2.2.2.2.2.2
  · rw [endGame_score_spec e' (endGame e s)]
    rw [(endGame_fields e s).1, (endGame_fields e s).2.2.2.1,
        (endGame_fields e s).2.2.2.2.1, (endGame_fields e s).2.2.2.2.2.1]

/-- C9, counterexample: with a one-word pool (all of it eligible for the
easy range), `startGame` raises no configuration error: the session
becomes active with a word list shorter than `totalWords`. -/
theorem startGame_short_pool_enters_active :
    eligibleWords (difficultyConfig .easy) ["tree"] = ["tree"] ∧
    List.length ["tree"] < (difficultyConfig .easy).words ∧
    (startGame (difficultyConfig .easy) ["tree"]).isGameActive = true ∧
    (startGame (difficultyConfig .easy) ["tree"]).game.selectedWords.length <
      (startGame (difficultyConfig .easy) ["tree"]).game.totalWords := by decide

/-- C9, amended: `startGame` performs no eligibility-count check: for every
configuration and every shuffled pool it unconditionally enters the active
state with `totalWords` fixed by the configuration and `selectedWords`
holding only `min cfg.words pool.length` words. -/
theorem startGame_no_eligibility_check (cfg : Config) (shuffled : List String) :
    (startGame cfg shuffled).isGameActive = true ∧
    (startGame cfg shuffled).game.totalWords = cfg.words ∧
    (startGame cfg shuffled).game.selectedWords.length = min cfg.words shuffled.length := by
  refine ⟨rfl, rfl, ?_⟩
  simp [startGame]

/-- C10, counterexample: with every random shuffle returning the input
itself (a legitimate outcome of the comparator-based shuffle),
`scrambleWord "ab"` returns `"ab"` even though the distinct permutation
`"ba"` exists - the "guaranteed different when possible" part fails. -/
theorem scrambleWord_can_return_input :
    (∀ i : Nat, sameLetters ((fun _ : Nat => "ab") i) "ab" = true) ∧
    sameLetters "ba" "ab" = true ∧ ("ba" : String) ≠ "ab" ∧
    scrambleWord (fun _ => "ab") "ab" = "ab" :=
  ⟨fun _ => (by decide : sameLetters "ab" "ab" = true), by decide, by decide, by decide⟩

/-- C10, amended: whenever each of the random draws is a letter-permutation
of the word, `scrambleWord` returns a letter-permutation of the word; for
words of length at least 2 it returns a string different from the input
whenever at least one of the (up to 11) draws it may inspect differs - but
it may return the input itself when every draw reproduces it. -/
theorem scrambleWord_retry_behavior (draws : Nat → String) (word : String)
    (hdraws : ∀ i, i ≤ 10 → sameLetters (draws i) word = true) :
    sameLetters (scrambleWord draws word) word = true ∧
    (1 < word.length → (∃ i, i ≤ 10 ∧ draws i ≠ word) →
      scrambleWord draws word ≠ word) := by
  constructor
  · unfold scrambleWord
    split
    · simp [sameLetters]
    · exact scrambleGo_sig word draws 10 0 (draws 0) (hdraws 0 (by omega))
        (fun i hi => hdraws i (by omega))
  · intro hlen ⟨i, hi, hne⟩
    unfold scrambleWord
    rw [if_neg (by omega)]
    apply scrambleGo_ne
    by_cases hzero : i = 0
    · subst hzero
      exact Or.inl hne
    · exact Or.inr ⟨i, by omega, by omega, hne⟩

/-- C10, witness: with a first draw that differs, the result is a
letter-permutation different from the input. -/
theorem scrambleWord_retry_behavior_witness :
    sameLetters (scrambleWord (fun _ => "ba") "ab") "ab" = true ∧
    scrambleWord (fun _ => "ba") "ab" ≠ "ab" := by
  have h := scrambleWord_retry_behavior (fun _ => "ba") "ab"
    (fun _ _ => (by decide : sameLetters "ba" "ab" = true))
  exact ⟨h.1, h.2 (by decide) ⟨0, by omega, by decide⟩⟩

end WordMaster
